import Mathlib

/-!
Shallow embedding of two subsystems of the arceos repository:

* `src/modules/axtask/src/timers.rs` — the per-core deadline queue
  (`TIMER_LIST`, `set_alarm_wakeup`, `clear_alarm_wakeup`, `check_events`);
* `src/modules/axnet/src/listen_table.rs` — the TCP listen / SYN-backlog
  table (`ListenTable`, `ListenTableEntry`, `listen`, `unlisten`,
  `can_accept`, `accept`, `incoming_tcp_packet`).

Machine types are modelled with `Nat`; the per-core priority queue
(`PriorityQueue<TaskPtr, Reverse<TimeValue>>` of the priority-queue crate,
keyed by task identity) is modelled by an association list with unique task
keys, where `push` updates the priority of an existing key and `pop`
extracts a minimum-deadline entry.
-/

set_option autoImplicit false

namespace Spec2Proof

/-! ### Per-core deadline queue (timers.rs)

`TaskPtr` compares and hashes by `Arc` pointer identity; we model task
identity as a `Nat`.  `TimeValue` is a duration since boot; we model it
as a `Nat` (the claims only use its linear order).  The queue of the
current core is the explicit state threaded through each operation. -/

/-- The state of one core of `TIMER_LIST`: the entries of the
`PriorityQueue<TaskPtr, Reverse<TimeValue>>`, as an association list of
(task identity, deadline) pairs with pairwise distinct task keys (the
queue is keyed by task identity). -/
abbrev TimerList := List (Nat × Nat)

/-- Whether the queue already holds an entry for task `t`. -/
def hasKey (q : TimerList) (t : Nat) : Bool :=
  q.any (fun e => e.1 == t)

/-- `PriorityQueue::push` of the priority-queue crate: if an element equal
to the item is already in the queue its priority is updated (the item keeps
its slot), otherwise the pair is inserted. -/
def pqPush (q : TimerList) (t : Nat) (d : Nat) : TimerList :=
  if hasKey q t then q.map (fun e => if e.1 == t then (t, d) else e)
  else q ++ [(t, d)]

/-- `set_alarm_wakeup(deadline, task)` from timers.rs: push the task with
priority `Reverse(deadline)` onto the current core queue. -/
def set_alarm_wakeup (q : TimerList) (deadline : Nat) (task : Nat) : TimerList :=
  pqPush q task deadline

/-- `clear_alarm_wakeup(task)` from timers.rs: `PriorityQueue::remove`
drops the entry whose key equals `task` (pointer identity), if any. -/
def clear_alarm_wakeup (q : TimerList) (task : Nat) : TimerList :=
  q.filter (fun e => e.1 != task)

/-- Extract an entry of maximal priority, i.e. of minimal deadline under
`Reverse`, together with the remaining queue.  Among equal deadlines the
crate leaves the choice to the heap; we pick the first in list order. -/
def pqPopMin : TimerList → Option ((Nat × Nat) × TimerList)
  | [] => none
  | e :: rest =>
    match pqPopMin rest with
    | none => some (e, [])
    | some (m, rest') => if e.2 ≤ m.2 then some (e, rest) else some (m, e :: rest')

/-- The drain loop of `check_events`, with explicit fuel (the loop pops at
most one entry per iteration, so `q.length` fuel is enough).  Returns the
remaining queue together with the list of `unblock_task(task, true)` calls
made, in order: `pop_if(|_, Reverse(deadline)| *deadline < wall_time())`
pops the minimum-deadline entry only while its deadline is strictly before
the current wall-clock time. -/
def drainAux : Nat → TimerList → Nat → TimerList × List (Nat × Bool)
  | 0, q, _ => (q, [])
  | fuel + 1, q, now =>
    match pqPopMin q with
    | none => (q, [])
    | some ((t, d), q') =>
      if d < now then
        let r := drainAux fuel q' now
        (r.1, (t, true) :: r.2)
      else (q, [])

/-- `check_events()` from timers.rs, at wall-clock time `now`: repeatedly
pop the minimum-deadline entry while its deadline has strictly passed and
unblock each popped task with the timer flag set. -/
def check_events (q : TimerList) (now : Nat) : TimerList × List (Nat × Bool) :=
  drainAux q.length q now

/-! ### Lemmas about the priority queue -/

theorem pqPopMin_eq_none {q : TimerList} : pqPopMin q = none ↔ q = [] := by
  constructor
  · intro h
    cases q with
    | nil => rfl
    | cons e rest =>
      simp only [pqPopMin] at h
      cases hr : pqPopMin rest with
      | none => simp [hr] at h
      | some p =>
        obtain ⟨m, rest'⟩ := p
        simp only [hr] at h
        by_cases hle : e.2 ≤ m.2 <;> simp [hle] at h
  · intro h; subst h; rfl

theorem pqPopMin_perm {q : TimerList} {m : Nat × Nat} {q' : TimerList}
    (h : pqPopMin q = some (m, q')) : q.Perm (m :: q') := by
  induction q generalizing m q' with
  | nil => simp [pqPopMin] at h
  | cons e rest ih =>
    simp only [pqPopMin] at h
    cases hr : pqPopMin rest with
    | none =>
      have : rest = [] := pqPopMin_eq_none.mp hr
      subst this
      simp only [hr] at h
      obtain ⟨rfl, rfl⟩ := by simpa using h
      exact List.Perm.refl _
    | some p =>
      obtain ⟨m0, rest0⟩ := p
      simp only [hr] at h
      by_cases hle : e.2 ≤ m0.2
      · simp only [if_pos hle, Option.some.injEq, Prod.mk.injEq] at h
        obtain ⟨rfl, rfl⟩ := h
        exact List.Perm.refl _
      · simp only [if_neg hle, Option.some.injEq, Prod.mk.injEq] at h
        obtain ⟨rfl, rfl⟩ := h
        exact ((ih hr).cons e).trans (List.Perm.swap _ _ _)

theorem pqPopMin_min {q : TimerList} {m : Nat × Nat} {q' : TimerList}
    (h : pqPopMin q = some (m, q')) : ∀ e ∈ q, m.2 ≤ e.2 := by
  induction q generalizing m q' with
  | nil => simp [pqPopMin] at h
  | cons e rest ih =>
    simp only [pqPopMin] at h
    cases hr : pqPopMin rest with
    | none =>
      have : rest = [] := pqPopMin_eq_none.mp hr
      subst this
      simp only [hr, Option.some.injEq, Prod.mk.injEq] at h
      obtain ⟨rfl, rfl⟩ := h
      intro x hx
      simp only [List.mem_singleton] at hx
      subst hx; exact le_refl _
    | some p =>
      obtain ⟨m0, rest0⟩ := p
      simp only [hr] at h
      by_cases hle : e.2 ≤ m0.2
      · simp only [if_pos hle, Option.some.injEq, Prod.mk.injEq] at h
        obtain ⟨rfl, rfl⟩ := h
        intro x hx
        rcases List.mem_cons.mp hx with hx | hx
        · subst hx; exact le_refl _
        · exact le_trans hle (ih hr _ hx)
      · simp only [if_neg hle, Option.some.injEq, Prod.mk.injEq] at h
        obtain ⟨rfl, rfl⟩ := h
        intro x hx
        rcases List.mem_cons.mp hx with hx | hx
        · subst hx; exact le_of_lt (lt_of_not_le hle)
        · exact ih hr _ hx

theorem pqPopMin_length {q : TimerList} {m : Nat × Nat} {q' : TimerList}
    (h : pqPopMin q = some (m, q')) : q.length = q'.length + 1 := by
  simpa using (pqPopMin_perm h).length_eq

/-- Full characterization of the drain loop, for any sufficient fuel:
the remaining entries all have deadlines at or after `now`, every entry
whose deadline strictly passed is unblocked with the timer flag, every
entry whose deadline did not pass stays in the queue, and every unblock
call carries the timer flag and corresponds to an expired entry. -/
theorem drainAux_spec (fuel : Nat) :
    ∀ (q : TimerList) (now : Nat), q.length ≤ fuel →
      (∀ e ∈ (drainAux fuel q now).1, now ≤ e.2) ∧
      (∀ (t d : Nat), (t, d) ∈ q → d < now → (t, true) ∈ (drainAux fuel q now).2) ∧
      (∀ (t d : Nat), (t, d) ∈ q → now ≤ d → (t, d) ∈ (drainAux fuel q now).1) ∧
      (∀ t b, (t, b) ∈ (drainAux fuel q now).2 →
        b = true ∧ ∃ d, (t, d) ∈ q ∧ d < now) := by
  induction fuel with
  | zero =>
    intro q now hlen
    have : q = [] := List.length_eq_zero.mp (Nat.le_zero.mp hlen)
    subst this
    simp [drainAux]
  | succ fuel ih =>
    intro q now hlen
    cases hpop : pqPopMin q with
    | none =>
      have : q = [] := pqPopMin_eq_none.mp hpop
      subst this
      simp [drainAux, pqPopMin]
    | some p =>
      obtain ⟨⟨t, d⟩, q'⟩ := p
      have hperm := pqPopMin_perm hpop
      have hmin := pqPopMin_min hpop
      have hlen' : q'.length ≤ fuel := by
        have := pqPopMin_length hpop
        omega
      by_cases hd : d < now
      · have hrec := ih q' now hlen'
        have hstep : drainAux (fuel + 1) q now =
            ((drainAux fuel q' now).1, (t, true) :: (drainAux fuel q' now).2) := by
          simp [drainAux, hpop, hd]
        refine ⟨?_, ?_, ?_, ?_⟩
        · intro e he
          rw [hstep] at he
          exact hrec.1 e he
        · intro t0 d0 hmem hd0
          rw [hstep]
          rcases List.mem_cons.mp (hperm.mem_iff.mp hmem) with heq | hmem'
          · obtain ⟨rfl, rfl⟩ := Prod.mk.injEq .. ▸ heq
            exact List.mem_cons_self _ _
          · exact List.mem_cons_of_mem _ (hrec.2.1 t0 d0 hmem' hd0)
        · intro t0 d0 hmem hd0
          rw [hstep]
          rcases List.mem_cons.mp (hperm.mem_iff.mp hmem) with heq | hmem'
          · exfalso
            have : d0 = d := congrArg Prod.snd heq
            omega
          · exact hrec.2.2.1 t0 d0 hmem' hd0
        · intro t0 b hb
          rw [hstep] at hb
          rcases List.mem_cons.mp hb with heq | hb'
          · obtain ⟨rfl, rfl⟩ := Prod.mk.injEq .. ▸ heq
            refine ⟨rfl, d, ?_, hd⟩
            exact hperm.mem_iff.mpr (List.mem_cons_self _ _)
          · obtain ⟨hb1, d0, hmem, hd0⟩ := hrec.2.2.2 t0 b hb'
            exact ⟨hb1, d0, hperm.mem_iff.mpr (List.mem_cons_of_mem _ hmem), hd0⟩
      · have hstep : drainAux (fuel + 1) q now = (q, []) := by
          simp [drainAux, hpop, hd]
        refine ⟨?_, ?_, ?_, ?_⟩
        · intro e he
          rw [hstep] at he
          have := hmin e he
          simp only at this
          omega
        · intro t0 d0 hmem hd0
          exfalso
          have := hmin _ hmem
          simp only at this
          omega
        · intro t0 d0 hmem _
          rw [hstep]; exact hmem
        · intro t0 b hb
          rw [hstep] at hb
          simp at hb

/-! ### Claims about the deadline queue -/

/-- C9: `clear_alarm_wakeup` removes the given task registration from the
current core queue, keyed by task identity, if one is present; for a task
with no outstanding registration it is a no-op, and in all cases every
other task entry (task and deadline) is left unchanged. -/
theorem C9_clear_alarm_frame (q : TimerList) (task : Nat) :
    (hasKey q task = false → clear_alarm_wakeup q task = q) ∧
    (∀ e ∈ clear_alarm_wakeup q task, e ∈ q ∧ e.1 ≠ task) ∧
    (∀ e ∈ q, e.1 ≠ task → e ∈ clear_alarm_wakeup q task) := by
  refine ⟨?_, ?_, ?_⟩
  · intro hnone
    apply List.filter_eq_self.mpr
    intro e he
    simp only [hasKey, List.any_eq_false] at hnone
    simpa using hnone e he
  · intro e he
    have := List.mem_filter.mp he
    refine ⟨this.1, ?_⟩
    simpa using this.2
  · intro e he hne
    apply List.mem_filter.mpr
    exact ⟨he, by simpa using hne⟩

/-- Witness for C9 at concrete inputs. -/
theorem C9_clear_alarm_frame_witness :
    clear_alarm_wakeup [(1, 5), (2, 7)] 3 = [(1, 5), (2, 7)] ∧
    (1, 5) ∈ clear_alarm_wakeup [(1, 5), (2, 7)] 2 := by
  refine ⟨(C9_clear_alarm_frame [(1, 5), (2, 7)] 3).1 (by decide), ?_⟩
  exact (C9_clear_alarm_frame [(1, 5), (2, 7)] 2).2.2 (1, 5) (by decide) (by decide)

/-- C3 counterexample: the claim asserts that draining at a wall-clock
time ≥ D1 unblocks the task registered at deadline D1, but the pop
condition of `check_events` is strict (`*deadline < wall_time()`), so at a
wall-clock time equal to D1 nothing is popped and nothing is unblocked. -/
theorem C3_counterexample :
    (5 : Nat) ≥ 5 ∧ check_events [(0, 5)] 5 = ([(0, 5)], []) := by
  decide

/-- C3 (amended): `check_events` repeatedly pops the minimum-deadline
entry of the current core queue while that deadline is strictly earlier
than the current wall-clock time, invokes unblock for each popped task
with the wakeup marked timer-induced, and stops as soon as the minimum
remaining deadline is at or after the current time (or the queue is
empty); in particular, draining at a wall-clock time strictly greater
than D1 unblocks the task registered at deadline D1. -/
theorem C3_check_events_drain (q : TimerList) (now : Nat) :
    (∀ e ∈ (check_events q now).1, now ≤ e.2) ∧
    (∀ (t d : Nat), (t, d) ∈ q → d < now → (t, true) ∈ (check_events q now).2) ∧
    (∀ (t d : Nat), (t, d) ∈ q → now ≤ d → (t, d) ∈ (check_events q now).1) ∧
    (∀ (t : Nat) (b : Bool), (t, b) ∈ (check_events q now).2 →
      b = true ∧ ∃ d, (t, d) ∈ q ∧ d < now) :=
  drainAux_spec q.length q now (le_refl _)

/-- Witness for C3 (amended) at concrete inputs. -/
theorem C3_check_events_drain_witness :
    (0, true) ∈ (check_events [(0, 5), (1, 9)] 7).2 ∧
    (1, 9) ∈ (check_events [(0, 5), (1, 9)] 7).1 :=
  ⟨(C3_check_events_drain [(0, 5), (1, 9)] 7).2.1 0 5 (by decide) (by decide),
   (C3_check_events_drain [(0, 5), (1, 9)] 7).2.2.1 1 9 (by decide) (by decide)⟩

/-- C1 counterexample: arming the same task twice (deadlines 1 then 5)
does not leave two registrations: the priority queue is keyed by task
identity and the second push replaces the deadline, so exactly one entry
remains (at the later deadline) and a drain at a wall-clock time between
the two deadlines unblocks nothing. -/
theorem C1_counterexample :
    set_alarm_wakeup (set_alarm_wakeup [] 1 0) 5 0 = [(0, 5)] ∧
    (set_alarm_wakeup (set_alarm_wakeup [] 1 0) 5 0).length = 1 ∧
    (check_events (set_alarm_wakeup (set_alarm_wakeup [] 1 0) 5 0) 3).2 = [] := by
  decide

/-- C1 (amended): arming task T at deadline D1 then D2 (D1 < D2) on the
same core without an intervening disarm leaves a single registration for
T, at deadline D2 (the second arm replaces the deadline of the first); a
drain at a wall-clock time ≥ D1 but < D2 unblocks nothing and leaves the
D2 registration intact for a later drain, and a single disarm cancels
the registration. -/
theorem C1_rearm_replaces (t d1 d2 now : Nat)
    (h12 : d1 < d2) (h1 : d1 ≤ now) (h2 : now < d2) :
    set_alarm_wakeup (set_alarm_wakeup [] d1 t) d2 t = [(t, d2)] ∧
    check_events (set_alarm_wakeup (set_alarm_wakeup [] d1 t) d2 t) now = ([(t, d2)], []) ∧
    clear_alarm_wakeup (set_alarm_wakeup (set_alarm_wakeup [] d1 t) d2 t) t = [] := by
  have harm : set_alarm_wakeup (set_alarm_wakeup [] d1 t) d2 t = [(t, d2)] := by
    simp [set_alarm_wakeup, pqPush, hasKey]
  refine ⟨harm, ?_, ?_⟩
  · rw [harm]
    have hnot : ¬ d2 < now := by omega
    simp [check_events, drainAux, pqPopMin, hnot]
  · rw [harm]
    simp [clear_alarm_wakeup]

/-- Witness for C1 (amended) at concrete inputs. -/
theorem C1_rearm_replaces_witness :
    set_alarm_wakeup (set_alarm_wakeup [] 1 0) 5 0 = [(0, 5)] ∧
    check_events (set_alarm_wakeup (set_alarm_wakeup [] 1 0) 5 0) 3 = ([(0, 5)], []) ∧
    clear_alarm_wakeup (set_alarm_wakeup (set_alarm_wakeup [] 1 0) 5 0) 0 = [] :=
  C1_rearm_replaces 0 1 5 3 (by decide) (by decide) (by decide)

/-! ### TCP listen table (listen_table.rs)

The external socket registry (`SOCKET_SET`, a smoltcp `SocketSet`) is
modelled as an association list from socket handle to a socket record
holding the TCP state and the resolved endpoints; handle allocation is
modelled by a monotone counter.  The table itself (`ListenTable`, one
optional boxed entry per port) is modelled as a function from port
number to an optional entry. -/

/-- The smoltcp TCP socket states (`smoltcp::socket::tcp::State`). -/
inductive TcpState where
  | closed
  | listenSt
  | synSent
  | synReceived
  | established
  | finWait1
  | finWait2
  | closeWait
  | closing
  | lastAck
  | timeWait
deriving DecidableEq, Repr

/-- An IP endpoint (`IpEndpoint`): address and port.  Addresses are
abstracted to `Nat`; the claims only compare them for equality. -/
structure IpEndpoint where
  addr : Nat
  port : Nat
deriving DecidableEq, Repr

/-- A listen endpoint (`IpListenEndpoint`): optional address (none means
wildcard) and port. -/
structure IpListenEndpoint where
  addr : Option Nat
  port : Nat
deriving DecidableEq, Repr

/-- The part of a smoltcp TCP socket object visible to listen_table.rs:
its protocol state and its resolved local/remote endpoints (none while
unresolved; `local_endpoint()`/`remote_endpoint()` return `Option`). -/
structure Sock where
  state : TcpState
  localEp : Option IpEndpoint
  remoteEp : Option IpEndpoint
deriving DecidableEq, Repr

/-- The external socket registry `SOCKET_SET`, as an association list
from handle to socket record. -/
abbrev SocketRegistry := List (Nat × Sock)

/-- Look up the socket stored under a handle. -/
def lookupSock (r : SocketRegistry) (h : Nat) : Option Sock :=
  (r.find? (fun e => e.1 == h)).map (fun e => e.2)

/-- `SOCKET_SET.remove(handle)`: drop the socket stored under a handle. -/
def removeSock (r : SocketRegistry) (h : Nat) : SocketRegistry :=
  r.filter (fun e => e.1 != h)

/-- One `ListenTableEntry`: the bound listen endpoint and the SYN backlog
queue of pending-connection handles (`VecDeque<SocketHandle>`, front at
the head of the list). -/
structure ListenTableEntry where
  listen_endpoint : IpListenEndpoint
  syn_queue : List Nat
deriving DecidableEq, Repr

/-- `ListenTableEntry::can_accept(dst)`: the bound address must equal the
destination address unless the entry is wildcard-bound. -/
def ListenTableEntry.canAcceptDst (e : ListenTableEntry) (dst : Nat) : Bool :=
  match e.listen_endpoint.addr with
  | some a => a == dst
  | none => true

/-- The combined state visible to listen_table.rs: the `ListenTable`
(optional entry per port), the external socket registry, and the handle
allocator of the registry (handles are allocated in increasing order). -/
@[ext]
structure NetState where
  slots : Nat → Option ListenTableEntry
  sockets : SocketRegistry
  nextHandle : Nat

/-- The errors of listen_table.rs (`axerrno::LinuxError` values used). -/
inductive LinuxError where
  | EADDRINUSE
  | EINVAL
  | EAGAIN
  | ECONNRESET
deriving DecidableEq, Repr

/-- Modelled from the spec: `LISTEN_QUEUE_SIZE` is the fixed backlog
capacity from the consts module, which is outside the provided sources;
the spec fixes no numeric value (its concrete scenario uses 4), and no
claim depends on the exact value. -/
def LISTEN_QUEUE_SIZE : Nat := 4

/-- `ListenTable::can_listen(port)`: true iff the slot of the port is
unoccupied. -/
def can_listen (s : NetState) (port : Nat) : Bool :=
  (s.slots port).isNone

/-- `ListenTable::listen(listen_endpoint)`: install a fresh empty entry
if the slot of the port is free, otherwise fail with `EADDRINUSE` and
leave everything unchanged.  The Rust code first asserts that the port is
nonzero (a contract violation, not a recoverable error); theorems about
reachable behavior carry that hypothesis. -/
def listen (s : NetState) (ep : IpListenEndpoint) :
    NetState × Except LinuxError Unit :=
  match s.slots ep.port with
  | none =>
    ({ s with slots := fun p => if p = ep.port then some ⟨ep, []⟩ else s.slots p },
     Except.ok ())
  | some _ => (s, Except.error LinuxError.EADDRINUSE)

/-- `ListenTable::unlisten(port)`: unconditionally clear the slot; if an
entry was present, its `Drop` impl removes every queued handle from the
external socket registry. -/
def unlisten (s : NetState) (port : Nat) : NetState :=
  match s.slots port with
  | none => { s with slots := fun p => if p = port then none else s.slots p }
  | some e =>
    { s with
      slots := fun p => if p = port then none else s.slots p,
      sockets := e.syn_queue.foldl removeSock s.sockets }

/-- `is_connected(handle)`: the socket state has left the awaiting
handshake states (`Listen` and `SynReceived`).  The Rust accessor panics
on a dangling handle; queued handles always live in the registry, and the
model returns `false` outside that envelope. -/
def is_connected (r : SocketRegistry) (h : Nat) : Bool :=
  match lookupSock r h with
  | some sk => !(sk.state == TcpState.listenSt || sk.state == TcpState.synReceived)
  | none => false

/-- `is_closed(handle)`: the socket state is the terminal `Closed` state. -/
def is_closed (r : SocketRegistry) (h : Nat) : Bool :=
  match lookupSock r h with
  | some sk => sk.state == TcpState.closed
  | none => false

/-- `get_addr_tuple(handle)`: the resolved (local, remote) endpoint pair
of the socket.  The Rust code unwraps; the model substitutes a default
endpoint outside the reachable envelope. -/
def get_addr_tuple (r : SocketRegistry) (h : Nat) : IpEndpoint × IpEndpoint :=
  match lookupSock r h with
  | some sk => (sk.localEp.getD ⟨0, 0⟩, sk.remoteEp.getD ⟨0, 0⟩)
  | none => (⟨0, 0⟩, ⟨0, 0⟩)

/-- `ListenTable::can_accept(port)`: with an active listener, report
whether some backlog handle is connected; without one, fail with
`EINVAL`.  The Rust method takes `&self` and mutates nothing, which the
model reflects by not returning a state. -/
def can_accept (s : NetState) (port : Nat) : Except LinuxError Bool :=
  match s.slots port with
  | some e => Except.ok (e.syn_queue.any (fun h => is_connected s.sockets h))
  | none => Except.error LinuxError.EINVAL

/-- The index search of `accept`: the first index in queue-scan order
whose element satisfies the predicate
(`iter().enumerate().find_map(...)`). -/
def findFirstIdx {α : Type} (p : α → Bool) : List α → Option Nat
  | [] => none
  | a :: rest => if p a then some 0 else (findFirstIdx p rest).map (· + 1)

/-- `VecDeque::swap_remove_front(idx)`: remove the element at `idx` and
return it, filling the hole with the current front element (the front is
popped); `none` when the index is out of bounds. -/
def swapRemoveFront {α : Type} : List α → Nat → Option (α × List α)
  | [], _ => none
  | a :: rest, 0 => some (a, rest)
  | a :: rest, i + 1 =>
    match rest[i]? with
    | none => none
    | some b => some (b, rest.set i a)

/-- `ListenTable::accept(port)`: fail with `EINVAL` without a listener;
scan the backlog for the first connected handle, failing with `EAGAIN`
when there is none; remove the chosen handle by `swap_remove_front`; then
return `ECONNRESET` if its socket already reached the `Closed` state
(the handle stays consumed), and otherwise the handle with its endpoint
pair.  The inner `none` branch of the removal is unreachable (the found
index is in bounds; the Rust code unwraps). -/
def accept (s : NetState) (port : Nat) :
    NetState × Except LinuxError (Nat × (IpEndpoint × IpEndpoint)) :=
  match s.slots port with
  | none => (s, Except.error LinuxError.EINVAL)
  | some entry =>
    match findFirstIdx (fun h => is_connected s.sockets h) entry.syn_queue with
    | none => (s, Except.error LinuxError.EAGAIN)
    | some idx =>
      match swapRemoveFront entry.syn_queue idx with
      | none => (s, Except.error LinuxError.EAGAIN)
      | some (handle, q') =>
        let s' := { s with
          slots := fun p =>
            if p = port then some { entry with syn_queue := q' } else s.slots p }
        if is_closed s.sockets handle then
          (s', Except.error LinuxError.ECONNRESET)
        else
          (s', Except.ok (handle, get_addr_tuple s.sockets handle))

/-- The result of `smoltcp::socket::tcp::Socket::listen` on a freshly
created socket: it fails only when the listen endpoint port is zero (a
fresh socket is never open). -/
def socketListenOk (ep : IpListenEndpoint) : Bool :=
  ep.port != 0

/-- `ListenTable::incoming_tcp_packet(src, dst, sockets)`: deliver an
inbound SYN.  No listener on the destination port, or an address
mismatch, silently ignores the packet; a full backlog silently drops it;
otherwise a fresh passive socket is created, and only if its `listen`
call succeeds is it added to the registry and its handle appended to the
backlog. -/
def incoming_tcp_packet (s : NetState) (src dst : IpEndpoint) : NetState :=
  match s.slots dst.port with
  | none => s
  | some entry =>
    if !(entry.canAcceptDst dst.addr) then s
    else if LISTEN_QUEUE_SIZE ≤ entry.syn_queue.length then s
    else if socketListenOk entry.listen_endpoint then
      { s with
        sockets := s.sockets ++ [(s.nextHandle, ⟨TcpState.listenSt, none, none⟩)],
        nextHandle := s.nextHandle + 1,
        slots := fun p =>
          if p = dst.port then
            some { entry with syn_queue := entry.syn_queue ++ [s.nextHandle] }
          else s.slots p }
    else s

/-! ### Lemmas about the listen table primitives -/

theorem findFirstIdx_eq_none {α : Type} {p : α → Bool} {l : List α} :
    findFirstIdx p l = none ↔ ∀ a ∈ l, p a = false := by
  induction l with
  | nil => simp [findFirstIdx]
  | cons x rest ih =>
    by_cases hx : p x
    · simp [findFirstIdx, hx]
    · cases hf : findFirstIdx p rest with
      | none =>
        constructor
        · intro _ a ha
          rcases List.mem_cons.mp ha with rfl | ha
          · simpa using hx
          · exact ih.mp hf a ha
        · intro _
          simp [findFirstIdx, hx, hf]
      | some i0 =>
        constructor
        · intro h
          simp [findFirstIdx, hx, hf] at h
        · intro hall
          have hnone : findFirstIdx p rest = none :=
            ih.mpr (fun a ha => hall a (List.mem_cons_of_mem _ ha))
          rw [hnone] at hf
          cases hf

theorem findFirstIdx_found {α : Type} {p : α → Bool} :
    ∀ {l : List α} {i : Nat}, findFirstIdx p l = some i →
      (∃ a, l[i]? = some a ∧ p a = true) ∧
      (∀ j, j < i → ∀ b, l[j]? = some b → p b = false)
  | [], i, h => by simp [findFirstIdx] at h
  | x :: rest, i, h => by
    by_cases hx : p x
    · simp only [findFirstIdx, if_pos hx, Option.some.injEq] at h
      subst h
      exact ⟨⟨x, by simp, hx⟩, fun j hj => by omega⟩
    · cases hf : findFirstIdx p rest with
      | none => simp [findFirstIdx, hx, hf] at h
      | some i0 =>
        simp only [findFirstIdx, if_neg hx, hf] at h
        have hi : i = i0 + 1 := by
          simpa using h.symm
        subst hi
        obtain ⟨⟨a, ha, hpa⟩, hmin⟩ := findFirstIdx_found hf
        refine ⟨⟨a, by simpa using ha, hpa⟩, ?_⟩
        intro j hj b hb
        cases j with
        | zero =>
          simp only [List.getElem?_cons_zero, Option.some.injEq] at hb
          subst hb
          simpa using hx
        | succ j0 =>
          simp only [List.getElem?_cons_succ] at hb
          exact hmin j0 (by omega) b hb

theorem swapRemoveFront_get {α : Type} :
    ∀ {l : List α} {i : Nat} {a : α} {l' : List α},
      swapRemoveFront l i = some (a, l') → l[i]? = some a
  | [], i, a, l', h => by simp [swapRemoveFront] at h
  | x :: rest, 0, a, l', h => by
    simp only [swapRemoveFront, Option.some.injEq, Prod.mk.injEq] at h
    simp [h.1]
  | x :: rest, i + 1, a, l', h => by
    cases hg : rest[i]? with
    | none => simp [swapRemoveFront, hg] at h
    | some b =>
      simp only [swapRemoveFront, hg, Option.some.injEq, Prod.mk.injEq] at h
      obtain ⟨rfl, rfl⟩ := h
      simpa using hg

theorem swapRemoveFront_cons_perm {α : Type} :
    ∀ (rest : List α) (i : Nat) (b x : α), rest[i]? = some b →
      (x :: rest).Perm (b :: rest.set i x)
  | [], i, b, x, h => by simp at h
  | y :: rs, 0, b, x, h => by
    simp only [List.getElem?_cons_zero, Option.some.injEq] at h
    subst h
    exact List.Perm.swap _ _ _
  | y :: rs, i + 1, b, x, h => by
    simp only [List.getElem?_cons_succ] at h
    have ih := swapRemoveFront_cons_perm rs i b x h
    have h1 : (x :: y :: rs).Perm (y :: x :: rs) := List.Perm.swap _ _ _
    have h2 : (y :: x :: rs).Perm (y :: b :: rs.set i x) := ih.cons y
    have h3 : (y :: b :: rs.set i x).Perm (b :: y :: rs.set i x) := List.Perm.swap _ _ _
    exact (h1.trans h2).trans h3

/-- Removing the element at a valid index by `swap_remove_front` yields a
permutation: the original queue is, up to order, the removed element
together with the remaining queue. -/
theorem swapRemoveFront_perm {α : Type} :
    ∀ {l : List α} {i : Nat} {a : α} {l' : List α},
      swapRemoveFront l i = some (a, l') → l.Perm (a :: l')
  | [], i, a, l', h => by simp [swapRemoveFront] at h
  | x :: rest, 0, a, l', h => by
    simp only [swapRemoveFront, Option.some.injEq, Prod.mk.injEq] at h
    obtain ⟨rfl, rfl⟩ := h
    exact List.Perm.refl _
  | x :: rest, i + 1, a, l', h => by
    cases hg : rest[i]? with
    | none => simp [swapRemoveFront, hg] at h
    | some b =>
      simp only [swapRemoveFront, hg, Option.some.injEq, Prod.mk.injEq] at h
      obtain ⟨rfl, rfl⟩ := h
      exact swapRemoveFront_cons_perm rest i _ x hg

theorem is_connected_iff {r : SocketRegistry} {h : Nat} :
    is_connected r h = true ↔
      ∃ sk, lookupSock r h = some sk ∧
        sk.state ≠ TcpState.listenSt ∧ sk.state ≠ TcpState.synReceived := by
  unfold is_connected
  cases hl : lookupSock r h with
  | none => simp
  | some sk => simp [hl]

/-! ### Claims about the listen table -/

/-- C5: on a free slot with nonzero port, `listen` succeeds and installs
a fresh empty entry; a second `listen` on the same port without an
intervening `unlisten` fails with `EADDRINUSE` and leaves the state (in
particular the existing entry) unchanged; after `unlisten` on the port, a
subsequent `listen` on it succeeds again. -/
theorem listen_free {s : NetState} {ep : IpListenEndpoint}
    (h : s.slots ep.port = none) :
    listen s ep =
      ({ s with slots := fun p => if p = ep.port then some ⟨ep, []⟩ else s.slots p },
       Except.ok ()) := by
  unfold listen
  rw [h]

theorem listen_occupied {s : NetState} {ep : IpListenEndpoint} {e : ListenTableEntry}
    (h : s.slots ep.port = some e) :
    listen s ep = (s, Except.error LinuxError.EADDRINUSE) := by
  unfold listen
  rw [h]

theorem C5_listen_lifecycle (s : NetState) (ep ep2 : IpListenEndpoint)
    (hport : ep.port ≠ 0) (hfree : s.slots ep.port = none)
    (hport2 : ep2.port = ep.port) :
    (listen s ep).2 = Except.ok () ∧
    (listen s ep).1.slots ep.port = some ⟨ep, []⟩ ∧
    (listen (listen s ep).1 ep2).2 = Except.error LinuxError.EADDRINUSE ∧
    (listen (listen s ep).1 ep2).1 = (listen s ep).1 ∧
    (listen (unlisten (listen s ep).1 ep.port) ep2).2 = Except.ok () := by
  have h1 := listen_free hfree
  have hs1 : (listen s ep).1.slots ep.port = some ⟨ep, []⟩ := by
    rw [h1]; simp
  have hs1b : (listen s ep).1.slots ep2.port = some ⟨ep, []⟩ := by
    rw [hport2]; exact hs1
  have h2 := listen_occupied hs1b
  have hun : (unlisten (listen s ep).1 ep.port).slots ep2.port = none := by
    unfold unlisten
    rw [hs1]
    simp [hport2]
  have h3 : (listen (unlisten (listen s ep).1 ep.port) ep2).2 = Except.ok () := by
    rw [listen_free hun]
  exact ⟨by rw [h1], hs1, by rw [h2], by rw [h2], h3⟩

/-- Witness for C5 at concrete inputs. -/
theorem C5_listen_lifecycle_witness :
    (listen ⟨fun _ => none, [], 0⟩ ⟨none, 80⟩).2 = Except.ok () ∧
    (listen ⟨fun _ => none, [], 0⟩ ⟨none, 80⟩).1.slots 80 = some ⟨⟨none, 80⟩, []⟩ ∧
    (listen (listen ⟨fun _ => none, [], 0⟩ ⟨none, 80⟩).1 ⟨some 3, 80⟩).2 =
      Except.error LinuxError.EADDRINUSE ∧
    (listen (listen ⟨fun _ => none, [], 0⟩ ⟨none, 80⟩).1 ⟨some 3, 80⟩).1 =
      (listen ⟨fun _ => none, [], 0⟩ ⟨none, 80⟩).1 ∧
    (listen (unlisten (listen ⟨fun _ => none, [], 0⟩ ⟨none, 80⟩).1 80) ⟨some 3, 80⟩).2 =
      Except.ok () :=
  C5_listen_lifecycle ⟨fun _ => none, [], 0⟩ ⟨none, 80⟩ ⟨some 3, 80⟩
    (by decide) rfl rfl

/-- C10: with an active listener on the destination port that accepts the
destination address and has backlog room, a failing `listen` call on the
newly created socket silently discards the packet: the state (registry,
backlog, allocator) is unchanged and no error is surfaced (the function
returns no error by type). -/
theorem C10_syn_listen_failure_drop (s : NetState) (src dst : IpEndpoint)
    (entry : ListenTableEntry) (hslot : s.slots dst.port = some entry)
    (haddr : entry.canAcceptDst dst.addr = true)
    (hroom : entry.syn_queue.length < LISTEN_QUEUE_SIZE)
    (hfail : socketListenOk entry.listen_endpoint = false) :
    incoming_tcp_packet s src dst = s := by
  have hnotfull : ¬ LISTEN_QUEUE_SIZE ≤ entry.syn_queue.length := by omega
  simp [incoming_tcp_packet, hslot, haddr, hnotfull, hfail]

/-- Witness for C10 at concrete inputs (an entry bound to port 0 is the
one configuration making the smoltcp listen call fail). -/
theorem C10_syn_listen_failure_drop_witness :
    incoming_tcp_packet
        ⟨fun p => if p = 7 then some ⟨⟨none, 0⟩, []⟩ else none, [], 0⟩ ⟨5, 9⟩ ⟨1, 7⟩ =
      ⟨fun p => if p = 7 then some ⟨⟨none, 0⟩, []⟩ else none, [], 0⟩ :=
  C10_syn_listen_failure_drop _ ⟨5, 9⟩ ⟨1, 7⟩ ⟨⟨none, 0⟩, []⟩ rfl rfl (by decide) rfl

/-- C8: `can_accept` on a port with an active listener returns `ok true`
iff some backlog handle refers to a registered socket whose state has
left the awaiting-handshake states `Listen` and `SynReceived`; with a
listener it always returns a boolean (never an error), and on a port with
no active listener it fails with `EINVAL`.  The Rust method borrows the
table immutably, which the model reflects by returning no state. -/
theorem C8_can_accept_iff (s : NetState) (port : Nat) :
    (s.slots port = none → can_accept s port = Except.error LinuxError.EINVAL) ∧
    (∀ e, s.slots port = some e →
      (can_accept s port = Except.ok true ↔
        ∃ h ∈ e.syn_queue, ∃ sk, lookupSock s.sockets h = some sk ∧
          sk.state ≠ TcpState.listenSt ∧ sk.state ≠ TcpState.synReceived) ∧
      ∃ b : Bool, can_accept s port = Except.ok b) := by
  refine ⟨fun h => by simp [can_accept, h], ?_⟩
  intro e he
  have hca : can_accept s port =
      Except.ok (e.syn_queue.any (fun h => is_connected s.sockets h)) := by
    simp [can_accept, he]
  refine ⟨?_, _, hca⟩
  rw [hca]
  constructor
  · intro hok
    have hany : e.syn_queue.any (fun h => is_connected s.sockets h) = true := by
      simpa using hok
    obtain ⟨h, hh, hc⟩ := List.any_eq_true.mp hany
    exact ⟨h, hh, is_connected_iff.mp hc⟩
  · intro hex
    obtain ⟨h, hh, hsk⟩ := hex
    have hany : e.syn_queue.any (fun h => is_connected s.sockets h) = true :=
      List.any_eq_true.mpr ⟨h, hh, is_connected_iff.mpr hsk⟩
    rw [hany]

/-- Witness for C8 at concrete inputs. -/
theorem C8_can_accept_iff_witness :
    can_accept ⟨fun p => if p = 80 then some ⟨⟨none, 80⟩, [3]⟩ else none,
        [(3, ⟨TcpState.established, none, none⟩)], 4⟩ 80 = Except.ok true ∧
    can_accept ⟨fun p => if p = 80 then some ⟨⟨none, 80⟩, [3]⟩ else none,
        [(3, ⟨TcpState.established, none, none⟩)], 4⟩ 81 =
      Except.error LinuxError.EINVAL := by
  constructor
  · exact ((C8_can_accept_iff ⟨fun p => if p = 80 then some ⟨⟨none, 80⟩, [3]⟩ else none,
        [(3, ⟨TcpState.established, none, none⟩)], 4⟩ 80).2 ⟨⟨none, 80⟩, [3]⟩ rfl).1.mpr
      ⟨3, by decide, ⟨TcpState.established, none, none⟩, rfl, by decide, by decide⟩
  · exact (C8_can_accept_iff ⟨fun p => if p = 80 then some ⟨⟨none, 80⟩, [3]⟩ else none,
        [(3, ⟨TcpState.established, none, none⟩)], 4⟩ 81).1 rfl

/-- Folding `SOCKET_SET.remove` over a list of handles keeps exactly the
registry entries whose handle is not in the list. -/
theorem foldl_removeSock_eq_filter :
    ∀ (hs : List Nat) (r : SocketRegistry),
      hs.foldl removeSock r = r.filter (fun x => hs.all (fun h2 => x.1 != h2)) := by
  intro hs
  induction hs with
  | nil =>
    intro r
    simp [List.filter_eq_self]
  | cons h rest ih =>
    intro r
    have step : (h :: rest).foldl removeSock r = rest.foldl removeSock (removeSock r h) := rfl
    rw [step, ih, removeSock, List.filter_filter]
    apply List.filter_congr
    intro x _
    simp only [List.all_cons]
    exact Bool.and_comm _ _

/-- C6: `unlisten` unconditionally clears the slot of the port; when the
slot was already empty it is a no-op on the whole state; other ports are
untouched; and when an entry with queued pending-connection handles
existed, its destruction releases exactly those handles from the external
socket registry, so the registry returns to the pre-admission baseline
when the queued handles are exactly the admitted ones. -/
theorem C6_unlisten_release (s : NetState) (port : Nat) :
    ((unlisten s port).slots port = none) ∧
    (s.slots port = none → unlisten s port = s) ∧
    (∀ q, q ≠ port → (unlisten s port).slots q = s.slots q) ∧
    (∀ e, s.slots port = some e →
      ∀ baseline admitted : SocketRegistry,
        s.sockets = baseline ++ admitted →
        (∀ a ∈ admitted, a.1 ∈ e.syn_queue) →
        (∀ b ∈ baseline, b.1 ∉ e.syn_queue) →
        (unlisten s port).sockets = baseline) := by
  refine ⟨?_, ?_, ?_, ?_⟩
  · cases hslot : s.slots port <;> simp [unlisten, hslot]
  · intro h
    simp only [unlisten, h]
    refine NetState.ext ?_ rfl rfl
    funext p
    by_cases hp : p = port
    · subst hp
      simp [h.symm]
    · simp [hp]
  · intro q hq
    cases hslot : s.slots port <;> simp [unlisten, hslot, hq]
  · intro e he baseline admitted hsplit hadm hbase
    have hu : (unlisten s port).sockets = e.syn_queue.foldl removeSock s.sockets := by
      simp [unlisten, he]
    rw [hu, foldl_removeSock_eq_filter, hsplit, List.filter_append]
    have hb : baseline.filter (fun x => e.syn_queue.all (fun h2 => x.1 != h2)) = baseline := by
      apply List.filter_eq_self.mpr
      intro b hbmem
      apply List.all_eq_true.mpr
      intro h2 hh2
      have : b.1 ≠ h2 := fun heq => hbase b hbmem (heq ▸ hh2)
      simpa using this
    have ha : admitted.filter (fun x => e.syn_queue.all (fun h2 => x.1 != h2)) = [] := by
      apply List.filter_eq_nil_iff.mpr
      intro a hamem hall
      have := List.all_eq_true.mp hall a.1 (hadm a hamem)
      simp at this
    rw [hb, ha, List.append_nil]

/-- Witness for C6 at concrete inputs. -/
theorem C6_unlisten_release_witness :
    (unlisten ⟨fun p => if p = 80 then some ⟨⟨none, 80⟩, [5, 6]⟩ else none,
        [(1, ⟨TcpState.established, none, none⟩), (5, ⟨TcpState.synReceived, none, none⟩),
         (6, ⟨TcpState.listenSt, none, none⟩)], 7⟩ 80).sockets =
      [(1, ⟨TcpState.established, none, none⟩)] ∧
    unlisten ⟨fun _ => none, [], 0⟩ 80 = ⟨fun _ => none, [], 0⟩ := by
  constructor
  · exact (C6_unlisten_release ⟨fun p => if p = 80 then some ⟨⟨none, 80⟩, [5, 6]⟩ else none,
      [(1, ⟨TcpState.established, none, none⟩), (5, ⟨TcpState.synReceived, none, none⟩),
       (6, ⟨TcpState.listenSt, none, none⟩)], 7⟩ 80).2.2.2 ⟨⟨none, 80⟩, [5, 6]⟩ rfl
      [(1, ⟨TcpState.established, none, none⟩)]
      [(5, ⟨TcpState.synReceived, none, none⟩), (6, ⟨TcpState.listenSt, none, none⟩)]
      rfl (by decide) (by decide)
  · exact (C6_unlisten_release ⟨fun _ => none, [], 0⟩ 80).2.1 rfl

theorem accept_no_listener {s : NetState} {port : Nat}
    (hslot : s.slots port = none) :
    accept s port = (s, Except.error LinuxError.EINVAL) := by
  simp [accept, hslot]

theorem accept_eagain {s : NetState} {port : Nat} {entry : ListenTableEntry}
    (hslot : s.slots port = some entry)
    (hfind : findFirstIdx (fun h => is_connected s.sockets h) entry.syn_queue = none) :
    accept s port = (s, Except.error LinuxError.EAGAIN) := by
  simp [accept, hslot, hfind]

theorem accept_reset {s : NetState} {port : Nat} {entry : ListenTableEntry}
    {idx handle : Nat} {q' : List Nat}
    (hslot : s.slots port = some entry)
    (hfind : findFirstIdx (fun h => is_connected s.sockets h) entry.syn_queue = some idx)
    (hswap : swapRemoveFront entry.syn_queue idx = some (handle, q'))
    (hclosed : is_closed s.sockets handle = true) :
    accept s port =
      ({ s with slots := fun p =>
          if p = port then some { entry with syn_queue := q' } else s.slots p },
       Except.error LinuxError.ECONNRESET) := by
  simp [accept, hslot, hfind, hswap, hclosed]

theorem accept_ok {s : NetState} {port : Nat} {entry : ListenTableEntry}
    {idx handle : Nat} {q' : List Nat}
    (hslot : s.slots port = some entry)
    (hfind : findFirstIdx (fun h => is_connected s.sockets h) entry.syn_queue = some idx)
    (hswap : swapRemoveFront entry.syn_queue idx = some (handle, q'))
    (hopen : is_closed s.sockets handle = false) :
    accept s port =
      ({ s with slots := fun p =>
          if p = port then some { entry with syn_queue := q' } else s.slots p },
       Except.ok (handle, get_addr_tuple s.sockets handle)) := by
  simp [accept, hslot, hfind, hswap, hopen]

/-- A valid index is always removable: `swap_remove_front` succeeds on
every in-bounds index. -/
theorem swapRemoveFront_isSome {α : Type} :
    ∀ (l : List α) (i : Nat), i < l.length →
      ∃ a l', swapRemoveFront l i = some (a, l')
  | [], i, h => by simp at h
  | x :: rest, 0, _ => ⟨x, rest, rfl⟩
  | x :: rest, i + 1, h => by
    have hi : i < rest.length := by simpa using h
    refine ⟨rest.get ⟨i, hi⟩, rest.set i x, ?_⟩
    have hg : rest[i]? = some (rest.get ⟨i, hi⟩) := by
      simp [List.getElem?_eq_getElem hi]
    simp [swapRemoveFront, hg]

/-- C7: with an active listener, `accept` fails with `EAGAIN` when no
backlog handle has progressed past the awaiting-handshake states,
leaving the whole state (in particular the backlog) unchanged; it fails
with `ECONNRESET` when the chosen ready handle's socket already reached
the terminal `Closed` state, in which case the handle is still removed
from the backlog; and `accept` only ever returns handles that were
members of the port's backlog, so a consumed handle is never returned by
a later `accept`. -/
theorem C7_accept_errors (s : NetState) (port : Nat) (entry : ListenTableEntry)
    (hslot : s.slots port = some entry) :
    ((∀ h ∈ entry.syn_queue, is_connected s.sockets h = false) →
      accept s port = (s, Except.error LinuxError.EAGAIN)) ∧
    (∀ (idx handle : Nat) (q' : List Nat),
      findFirstIdx (fun h => is_connected s.sockets h) entry.syn_queue = some idx →
      swapRemoveFront entry.syn_queue idx = some (handle, q') →
      is_closed s.sockets handle = true →
      (accept s port).2 = Except.error LinuxError.ECONNRESET ∧
      (accept s port).1.slots port = some { entry with syn_queue := q' } ∧
      (entry.syn_queue.Nodup → handle ∉ q')) ∧
    (∀ (s2 : NetState) (p2 h2 : Nat) (pr : IpEndpoint × IpEndpoint),
      (accept s2 p2).2 = Except.ok (h2, pr) →
      ∃ e2, s2.slots p2 = some e2 ∧ h2 ∈ e2.syn_queue) := by
  refine ⟨?_, ?_, ?_⟩
  · intro hall
    exact accept_eagain hslot (findFirstIdx_eq_none.mpr hall)
  · intro idx handle q' hfind hswap hclosed
    have heq := accept_reset hslot hfind hswap hclosed
    refine ⟨by rw [heq], by rw [heq]; simp, ?_⟩
    intro hnd
    have hperm := swapRemoveFront_perm hswap
    have : (handle :: q').Nodup := hperm.nodup_iff.mp hnd
    exact (List.nodup_cons.mp this).1
  · intro s2 p2 h2 pr hok
    cases hs2 : s2.slots p2 with
    | none => rw [accept_no_listener hs2] at hok; cases hok
    | some e2 =>
      cases hf : findFirstIdx (fun h => is_connected s2.sockets h) e2.syn_queue with
      | none => rw [accept_eagain hs2 hf] at hok; cases hok
      | some idx =>
        cases hsw : swapRemoveFront e2.syn_queue idx with
        | none =>
          exfalso
          obtain ⟨⟨a, ha, _⟩, _⟩ := findFirstIdx_found hf
          obtain ⟨hlt, -⟩ := List.getElem?_eq_some.mp ha
          obtain ⟨a2, l2, hs3⟩ := swapRemoveFront_isSome e2.syn_queue idx hlt
          rw [hs3] at hsw
          cases hsw
        | some p0 =>
          obtain ⟨hh, q2⟩ := p0
          have hmem : hh ∈ e2.syn_queue :=
            (swapRemoveFront_perm hsw).mem_iff.mpr (List.mem_cons_self _ _)
          by_cases hcl : is_closed s2.sockets hh = true
          · rw [accept_reset hs2 hf hsw hcl] at hok; cases hok
          · have hcl' : is_closed s2.sockets hh = false := by
              simpa using hcl
            rw [accept_ok hs2 hf hsw hcl'] at hok
            simp only [Except.ok.injEq, Prod.mk.injEq] at hok
            obtain ⟨rfl, -⟩ := hok
            exact ⟨e2, rfl, hmem⟩

/-- Witness for C7 at concrete inputs. -/
theorem C7_accept_errors_witness :
    accept ⟨fun p => if p = 80 then some ⟨⟨none, 80⟩, [10]⟩ else none,
        [(10, ⟨TcpState.listenSt, none, none⟩)], 11⟩ 80 =
      (⟨fun p => if p = 80 then some ⟨⟨none, 80⟩, [10]⟩ else none,
        [(10, ⟨TcpState.listenSt, none, none⟩)], 11⟩, Except.error LinuxError.EAGAIN) ∧
    (accept ⟨fun p => if p = 80 then some ⟨⟨none, 80⟩, [20]⟩ else none,
        [(20, ⟨TcpState.closed, none, none⟩)], 21⟩ 80).2 =
      Except.error LinuxError.ECONNRESET := by
  constructor
  · exact (C7_accept_errors
      ⟨fun p => if p = 80 then some ⟨⟨none, 80⟩, [10]⟩ else none,
        [(10, ⟨TcpState.listenSt, none, none⟩)], 11⟩ 80 ⟨⟨none, 80⟩, [10]⟩ rfl).1
      (by decide)
  · exact ((C7_accept_errors
      ⟨fun p => if p = 80 then some ⟨⟨none, 80⟩, [20]⟩ else none,
        [(20, ⟨TcpState.closed, none, none⟩)], 21⟩ 80 ⟨⟨none, 80⟩, [20]⟩ rfl).2.1
      0 20 [] rfl rfl rfl).1

/-- The concrete state for the C2 scenario: a listener on port 80 whose
backlog holds handles 10, 11, 12, where only the socket of handle 12 (at
the back of the queue) has progressed past the handshake. -/
def c2State : NetState :=
  ⟨fun p => if p = 80 then some ⟨⟨none, 80⟩, [10, 11, 12]⟩ else none,
   [(10, ⟨TcpState.listenSt, none, none⟩),
    (11, ⟨TcpState.synReceived, none, none⟩),
    (12, ⟨TcpState.established, some ⟨1, 80⟩, some ⟨2, 555⟩⟩)], 13⟩

/-- C2 counterexample: `accept` removes the chosen ready entry with
`swap_remove_front`, which fills the hole with the FRONT element, not
the last one: removing index 2 from backlog [10, 11, 12] leaves
[11, 10], whereas the swap-with-last removal stated by the claim would
leave [10, 11]. -/
theorem C2_counterexample :
    (accept c2State 80).2 = Except.ok (12, (⟨1, 80⟩, ⟨2, 555⟩)) ∧
    (accept c2State 80).1.slots 80 = some ⟨⟨none, 80⟩, [11, 10]⟩ ∧
    [11, 10] ≠ [10, 11] :=
  ⟨rfl, rfl, by decide⟩

/-- C2 (amended): with an active listener and a non-empty backlog,
`accept` removes and returns the first backlog entry in queue-scan order
whose socket state is no longer awaiting handshake, together with its
(local, remote) endpoint pair, and the removal is order-breaking O(1)
removal by `swap_remove_front`: the chosen entry is replaced by the
current front element and the front is popped (for a chosen index 0 the
front itself is removed). -/
theorem C2_accept_swap_front (s : NetState) (port : Nat) (entry : ListenTableEntry)
    (idx handle : Nat) (q' : List Nat)
    (hslot : s.slots port = some entry)
    (hfind : findFirstIdx (fun h => is_connected s.sockets h) entry.syn_queue = some idx)
    (hswap : swapRemoveFront entry.syn_queue idx = some (handle, q'))
    (hopen : is_closed s.sockets handle = false) :
    entry.syn_queue[idx]? = some handle ∧
    is_connected s.sockets handle = true ∧
    (∀ j, j < idx → ∀ h2, entry.syn_queue[j]? = some h2 →
      is_connected s.sockets h2 = false) ∧
    (accept s port).2 = Except.ok (handle, get_addr_tuple s.sockets handle) ∧
    (accept s port).1.slots port = some { entry with syn_queue := q' } ∧
    (idx = 0 → entry.syn_queue = handle :: q') ∧
    (∀ front rest, entry.syn_queue = front :: rest → 0 < idx →
      q' = rest.set (idx - 1) front) := by
  have hget := swapRemoveFront_get hswap
  obtain ⟨⟨a, ha, hpa⟩, hmin⟩ := findFirstIdx_found hfind
  have haeq : a = handle := by
    rw [ha] at hget
    exact Option.some.inj hget
  subst haeq
  have heq := accept_ok hslot hfind hswap hopen
  refine ⟨ha, hpa, hmin, by rw [heq], by rw [heq]; simp, ?_, ?_⟩
  · intro h0
    subst h0
    cases hq : entry.syn_queue with
    | nil => rw [hq] at hswap; simp [swapRemoveFront] at hswap
    | cons x rest =>
      rw [hq] at hswap
      simp only [swapRemoveFront, Option.some.injEq, Prod.mk.injEq] at hswap
      rw [hswap.1, hswap.2]
  · intro front rest hq hpos
    cases idx with
    | zero => omega
    | succ i =>
      rw [hq] at hswap
      cases hg : rest[i]? with
      | none => simp [swapRemoveFront, hg] at hswap
      | some b =>
        simp only [swapRemoveFront, hg, Option.some.injEq, Prod.mk.injEq] at hswap
        obtain ⟨-, rfl⟩ := hswap
        simp

/-- Witness for C2 (amended) at the concrete C2 scenario state. -/
theorem C2_accept_swap_front_witness :
    (accept c2State 80).2 = Except.ok (12, get_addr_tuple c2State.sockets 12) ∧
    (accept c2State 80).1.slots 80 = some ⟨⟨none, 80⟩, [11, 10]⟩ := by
  constructor
  · exact (C2_accept_swap_front c2State 80 ⟨⟨none, 80⟩, [10, 11, 12]⟩ 2 12 [11, 10]
      rfl rfl rfl rfl).2.2.2.1
  · exact (C2_accept_swap_front c2State 80 ⟨⟨none, 80⟩, [10, 11, 12]⟩ 2 12 [11, 10]
      rfl rfl rfl rfl).2.2.2.2.1

theorem incoming_no_listener {s : NetState} {src dst : IpEndpoint}
    (h : s.slots dst.port = none) :
    incoming_tcp_packet s src dst = s := by
  simp [incoming_tcp_packet, h]

theorem incoming_addr_mismatch {s : NetState} {src dst : IpEndpoint}
    {entry : ListenTableEntry} (h : s.slots dst.port = some entry)
    (ha : entry.canAcceptDst dst.addr = false) :
    incoming_tcp_packet s src dst = s := by
  simp [incoming_tcp_packet, h, ha]

theorem incoming_full {s : NetState} {src dst : IpEndpoint}
    {entry : ListenTableEntry} (h : s.slots dst.port = some entry)
    (ha : entry.canAcceptDst dst.addr = true)
    (hfull : LISTEN_QUEUE_SIZE ≤ entry.syn_queue.length) :
    incoming_tcp_packet s src dst = s := by
  simp [incoming_tcp_packet, h, ha, hfull]

theorem incoming_listen_fail {s : NetState} {src dst : IpEndpoint}
    {entry : ListenTableEntry} (h : s.slots dst.port = some entry)
    (ha : entry.canAcceptDst dst.addr = true)
    (hroom : entry.syn_queue.length < LISTEN_QUEUE_SIZE)
    (hfail : socketListenOk entry.listen_endpoint = false) :
    incoming_tcp_packet s src dst = s := by
  have hnotfull : ¬ LISTEN_QUEUE_SIZE ≤ entry.syn_queue.length := by omega
  simp [incoming_tcp_packet, h, ha, hnotfull, hfail]

theorem incoming_enqueue {s : NetState} {src dst : IpEndpoint}
    {entry : ListenTableEntry} (h : s.slots dst.port = some entry)
    (ha : entry.canAcceptDst dst.addr = true)
    (hroom : entry.syn_queue.length < LISTEN_QUEUE_SIZE)
    (hok : socketListenOk entry.listen_endpoint = true) :
    incoming_tcp_packet s src dst =
      { s with
        sockets := s.sockets ++ [(s.nextHandle, ⟨TcpState.listenSt, none, none⟩)],
        nextHandle := s.nextHandle + 1,
        slots := fun p =>
          if p = dst.port then
            some { entry with syn_queue := entry.syn_queue ++ [s.nextHandle] }
          else s.slots p } := by
  have hnotfull : ¬ LISTEN_QUEUE_SIZE ≤ entry.syn_queue.length := by omega
  simp [incoming_tcp_packet, h, ha, hnotfull, hok]

/-- The backlog-capacity invariant: every occupied port slot holds a
backlog of length at most `LISTEN_QUEUE_SIZE`. -/
def BacklogBounded (s : NetState) : Prop :=
  ∀ p e, s.slots p = some e → e.syn_queue.length ≤ LISTEN_QUEUE_SIZE

/-- Deliver `n` consecutive inbound SYN packets from `src` to `dst`. -/
def admitN (s : NetState) (src dst : IpEndpoint) : Nat → NetState
  | 0 => s
  | n + 1 => incoming_tcp_packet (admitN s src dst n) src dst

/-- Starting with a fresh listener, each admitted SYN appends one handle
while room remains: after `n ≤ LISTEN_QUEUE_SIZE` admissions the backlog
has exactly `n` entries. -/
theorem admitN_fill (s : NetState) (src dst : IpEndpoint) (ep : IpListenEndpoint)
    (hslot : s.slots dst.port = some ⟨ep, []⟩)
    (haddr : ListenTableEntry.canAcceptDst ⟨ep, []⟩ dst.addr = true)
    (hok : socketListenOk ep = true) :
    ∀ n, n ≤ LISTEN_QUEUE_SIZE →
      ∃ q : List Nat,
        (admitN s src dst n).slots dst.port = some ⟨ep, q⟩ ∧ q.length = n := by
  intro n
  induction n with
  | zero => intro _; exact ⟨[], hslot, rfl⟩
  | succ n ih =>
    intro hn
    obtain ⟨q, hq, hlen⟩ := ih (by omega)
    have hroom : (⟨ep, q⟩ : ListenTableEntry).syn_queue.length < LISTEN_QUEUE_SIZE := by
      show q.length < LISTEN_QUEUE_SIZE
      omega
    have haddr2 : ListenTableEntry.canAcceptDst ⟨ep, q⟩ dst.addr = true := haddr
    refine ⟨q ++ [(admitN s src dst n).nextHandle], ?_, by simp [hlen]⟩
    show (incoming_tcp_packet (admitN s src dst n) src dst).slots dst.port = _
    rw [@incoming_enqueue (admitN s src dst n) src dst ⟨ep, q⟩ hq haddr2 hroom hok]
    simp

/-- C4: every listen-table operation preserves the backlog-capacity
invariant, and the bounded-admission scenario holds: starting from a
fresh listener, `LISTEN_QUEUE_SIZE` SYNs fill the backlog to exactly the
capacity, and the next SYN is silently dropped, leaving the whole state
unchanged. -/
theorem C4_backlog_capacity :
    (∀ (s : NetState) (ep : IpListenEndpoint),
      BacklogBounded s → BacklogBounded (listen s ep).1) ∧
    (∀ (s : NetState) (p : Nat), BacklogBounded s → BacklogBounded (unlisten s p)) ∧
    (∀ (s : NetState) (p : Nat), BacklogBounded s → BacklogBounded (accept s p).1) ∧
    (∀ (s : NetState) (src dst : IpEndpoint),
      BacklogBounded s → BacklogBounded (incoming_tcp_packet s src dst)) ∧
    (∀ (s : NetState) (src dst : IpEndpoint) (ep : IpListenEndpoint),
      s.slots dst.port = some ⟨ep, []⟩ →
      ListenTableEntry.canAcceptDst ⟨ep, []⟩ dst.addr = true →
      socketListenOk ep = true →
      (∃ q : List Nat,
        (admitN s src dst LISTEN_QUEUE_SIZE).slots dst.port = some ⟨ep, q⟩ ∧
        q.length = LISTEN_QUEUE_SIZE) ∧
      admitN s src dst (LISTEN_QUEUE_SIZE + 1) = admitN s src dst LISTEN_QUEUE_SIZE) := by
  refine ⟨?_, ?_, ?_, ?_, ?_⟩
  · intro s ep hB
    cases hfree : s.slots ep.port with
    | none =>
      rw [listen_free hfree]
      intro p e hpe
      have hpe' : (if p = ep.port then some ⟨ep, []⟩ else s.slots p) = some e := hpe
      by_cases hp : p = ep.port
      · rw [if_pos hp] at hpe'
        cases hpe'
        exact Nat.zero_le _
      · rw [if_neg hp] at hpe'
        exact hB p e hpe'
    | some e0 =>
      rw [listen_occupied hfree]
      exact hB
  · intro s p hB p2 e2 hpe2
    have hpe2' : (if p2 = p then none else s.slots p2) = some e2 := by
      cases hslot : s.slots p with
      | none => simpa [unlisten, hslot] using hpe2
      | some e0 => simpa [unlisten, hslot] using hpe2
    by_cases hp2 : p2 = p
    · rw [if_pos hp2] at hpe2'; cases hpe2'
    · rw [if_neg hp2] at hpe2'; exact hB p2 e2 hpe2'
  · intro s p hB
    cases hs : s.slots p with
    | none => rw [accept_no_listener hs]; exact hB
    | some entry =>
      cases hf : findFirstIdx (fun h => is_connected s.sockets h) entry.syn_queue with
      | none => rw [accept_eagain hs hf]; exact hB
      | some idx =>
        cases hsw : swapRemoveFront entry.syn_queue idx with
        | none =>
          have : accept s p = (s, Except.error LinuxError.EAGAIN) := by
            simp [accept, hs, hf, hsw]
          rw [this]
          exact hB
        | some p0 =>
          obtain ⟨h0, q2⟩ := p0
          have hlen : q2.length + 1 = entry.syn_queue.length := by
            have := (swapRemoveFront_perm hsw).length_eq
            simpa using this.symm
          have hstate : (accept s p).1 =
              { s with
                slots := fun p2 =>
                  if p2 = p then some (ListenTableEntry.mk entry.listen_endpoint q2)
                  else s.slots p2 } := by
            by_cases hcl : is_closed s.sockets h0 = true
            · rw [accept_reset hs hf hsw hcl]
            · rw [accept_ok hs hf hsw (by simpa using hcl)]
          rw [hstate]
          intro p2 e2 hpe2
          have hpe2' : (if p2 = p then some (ListenTableEntry.mk entry.listen_endpoint q2)
              else s.slots p2) = some e2 := hpe2
          by_cases hp2 : p2 = p
          · rw [if_pos hp2] at hpe2'
            cases hpe2'
            have := hB p entry hs
            show q2.length ≤ LISTEN_QUEUE_SIZE
            omega
          · rw [if_neg hp2] at hpe2'
            exact hB p2 e2 hpe2'
  · intro s src dst hB
    cases hs : s.slots dst.port with
    | none => rw [incoming_no_listener hs]; exact hB
    | some entry =>
      cases ha : entry.canAcceptDst dst.addr with
      | false => rw [incoming_addr_mismatch hs ha]; exact hB
      | true =>
        by_cases hfull : LISTEN_QUEUE_SIZE ≤ entry.syn_queue.length
        · rw [incoming_full hs ha hfull]; exact hB
        · have hroom : entry.syn_queue.length < LISTEN_QUEUE_SIZE := by omega
          cases hok : socketListenOk entry.listen_endpoint with
          | false => rw [incoming_listen_fail hs ha hroom hok]; exact hB
          | true =>
            rw [incoming_enqueue hs ha hroom hok]
            intro p2 e2 hpe2
            have hpe2' : (if p2 = dst.port then
                some (ListenTableEntry.mk entry.listen_endpoint
                  (entry.syn_queue ++ [s.nextHandle]))
                else s.slots p2) = some e2 := hpe2
            by_cases hp2 : p2 = dst.port
            · rw [if_pos hp2] at hpe2'
              cases hpe2'
              show (entry.syn_queue ++ [s.nextHandle]).length ≤ LISTEN_QUEUE_SIZE
              simp only [List.length_append, List.length_cons, List.length_nil]
              omega
            · rw [if_neg hp2] at hpe2'
              exact hB p2 e2 hpe2'
  · intro s src dst ep hslot haddr hok
    obtain ⟨q, hq, hlen⟩ := admitN_fill s src dst ep hslot haddr hok
      LISTEN_QUEUE_SIZE (le_refl _)
    refine ⟨⟨q, hq, hlen⟩, ?_⟩
    show incoming_tcp_packet (admitN s src dst LISTEN_QUEUE_SIZE) src dst = _
    exact incoming_full hq haddr (by simpa using hlen.ge)

/-- Witness for C4 at the concrete scenario of the spec (listener on
port 8080, repeated SYNs from one source). -/
theorem C4_backlog_capacity_witness :
    (∃ q : List Nat,
      (admitN ⟨fun p => if p = 8080 then some ⟨⟨none, 8080⟩, []⟩ else none, [], 0⟩
          ⟨9, 1⟩ ⟨2, 8080⟩ LISTEN_QUEUE_SIZE).slots 8080 = some ⟨⟨none, 8080⟩, q⟩ ∧
      q.length = LISTEN_QUEUE_SIZE) ∧
    admitN ⟨fun p => if p = 8080 then some ⟨⟨none, 8080⟩, []⟩ else none, [], 0⟩
        ⟨9, 1⟩ ⟨2, 8080⟩ (LISTEN_QUEUE_SIZE + 1) =
      admitN ⟨fun p => if p = 8080 then some ⟨⟨none, 8080⟩, []⟩ else none, [], 0⟩
        ⟨9, 1⟩ ⟨2, 8080⟩ LISTEN_QUEUE_SIZE :=
  C4_backlog_capacity.2.2.2.2
    ⟨fun p => if p = 8080 then some ⟨⟨none, 8080⟩, []⟩ else none, [], 0⟩
    ⟨9, 1⟩ ⟨2, 8080⟩ ⟨none, 8080⟩ rfl rfl rfl
